import Mathlib

/-!
# Verification of the eagleproto prototyping-board generator

Shallow embedding of `eagleproto.py` (a generator of Eagle CAD
prototyping-board files) and proofs of the specification's claims about
it.  Real-valued quantities are modelled by `ℚ` (the Python source uses
IEEE doubles; the rational model is the exact-arithmetic idealization of
the same formulas).  Strings are modelled over their character lists;
the character-class model is the ASCII one (the source's `\d` and
`float` additionally accept non-ASCII Unicode digits, which no claim
exercises).
-/

namespace Eagleproto

/-! ## Python `float()` string acceptance

`inch_arg` first tries `float(s)`.  `pyFloat` models CPython's
`float()` on a string: optional surrounding whitespace, optional sign,
then `inf`/`infinity`/`nan` (case-insensitive) or a decimal literal
(`digits [. digits]` or `. digits`, underscores allowed only between
digits, optional exponent).  The numeric value is kept exactly in `ℚ`.
-/

/-- Result of Python `float()`: a finite value, an infinity, or NaN. -/
inductive PyFloat where
  | finite (q : ℚ)
  | inf
  | neginf
  | nan
deriving DecidableEq, Repr

/-- Whitespace characters stripped by `float()` (ASCII model). -/
def isPySpace (c : Char) : Bool :=
  c = ' ' || c = '\t' || c = '\n' || c = '\r' || c = '\x0b' || c = '\x0c'

/-- Strip leading and trailing whitespace. -/
def pyStrip (l : List Char) : List Char :=
  ((l.dropWhile isPySpace).reverse.dropWhile isPySpace).reverse

/-- Numeric value of a decimal digit character. -/
def digitVal (c : Char) : ℕ := c.toNat - 48

/-- Consume a run of decimal digits, underscores permitted only between
digits (PEP 515).  Accumulates the value `v` and the digit count `k`;
returns the value, the digit count and the unconsumed rest. -/
def pyDigits : List Char → ℕ → ℕ → ℕ × ℕ × List Char
  | [], v, k => (v, k, [])
  | [c], v, k =>
    if c.isDigit then (10 * v + digitVal c, k + 1, [])
    else if c = '_' then (v, k, [c])
    else (v, k, [c])
  | c :: d :: rest, v, k =>
    if c.isDigit then pyDigits (d :: rest) (10 * v + digitVal c) (k + 1)
    else if c = '_' then
      if d.isDigit then pyDigits rest (10 * v + digitVal d) (k + 1)
      else (v, k, c :: d :: rest)
    else (v, k, c :: d :: rest)

/-- A digit part must begin with a digit. -/
def pyDigitPart (l : List Char) : Option (ℕ × ℕ × List Char) :=
  match l with
  | c :: _ => if c.isDigit then some (pyDigits l 0 0) else none
  | [] => none

/-- Significand of a decimal float literal:
`digits [. [digits]]` or `. digits`. -/
def parseSignificand (l : List Char) : Option (ℚ × List Char) :=
  match pyDigitPart l with
  | some (iv, _, r1) =>
    match r1 with
    | '.' :: r2 =>
      match pyDigitPart r2 with
      | some (fv, fk, r3) => some ((iv : ℚ) + (fv : ℚ) / 10 ^ fk, r3)
      | none => some ((iv : ℚ), r2)
    | _ => some ((iv : ℚ), r1)
  | none =>
    match l with
    | '.' :: r2 =>
      match pyDigitPart r2 with
      | some (fv, fk, r3) => some ((fv : ℚ) / 10 ^ fk, r3)
      | none => none
    | _ => none

/-- Optional exponent `e[±]digits`; if the exponent fails to parse the
input is left unconsumed (so a trailing `e` makes the whole parse
fail at the end-of-string check). -/
def parseExponent (v : ℚ) (l : List Char) : ℚ × List Char :=
  match l with
  | c :: r1 =>
    if c = 'e' ∨ c = 'E' then
      let sgnRest : ℤ × List Char :=
        match r1 with
        | '+' :: r => (1, r)
        | '-' :: r => (-1, r)
        | _ => (1, r1)
      match pyDigitPart sgnRest.2 with
      | some (ev, _, r3) => (v * (10 : ℚ) ^ (sgnRest.1 * ev), r3)
      | none => (v, l)
    else (v, l)
  | [] => (v, [])

/-- Model of CPython `float(s)` on a string: `some` value on success,
`none` when `float` raises `ValueError`. -/
def pyFloat (s : String) : Option PyFloat :=
  let l := pyStrip s.data
  let signRest : Bool × List Char :=
    match l with
    | '+' :: r => (false, r)
    | '-' :: r => (true, r)
    | _ => (false, l)
  let neg := signRest.1
  let l1 := signRest.2
  let low := l1.map Char.toLower
  if low = ['i', 'n', 'f'] ∨ low = ['i', 'n', 'f', 'i', 'n', 'i', 't', 'y'] then
    some (if neg then .neginf else .inf)
  else if low = ['n', 'a', 'n'] then some .nan
  else
    match parseSignificand l1 with
    | some (v, r1) =>
      let vr := parseExponent v r1
      if vr.2 = [] then some (.finite (if neg then -vr.1 else vr.1)) else none
    | none => none

/-! ## The fraction regular expression

`re_fract_str = "(((\d+)\+)?)(\d+)/(\d+)"`, applied with `re.match`,
i.e. anchored at the start of the string but free to stop before its
end.  Because `\d`, `+` and `/` are disjoint character classes, the
backtracking search is deterministic: the optional group commits
exactly when the leading digit run is followed by `+`; if the
remainder then fails, the fallback with an empty optional group also
fails (the leading digits are followed by `+`, never `/`).
`matchFract` returns the three digit groups (base digits present or
not, numerator, denominator) and the unconsumed rest of the string. -/

/-- Value of a digit string, as computed by Python `int`. -/
def digitsToNat (l : List Char) : ℕ :=
  l.foldl (fun a c => 10 * a + digitVal c) 0

/-- `re.match` of `(((\d+)\+)?)(\d+)/(\d+)` against `l`: on success,
`(group 3 (if matched), group 4, group 5)` as numbers, plus the
characters after the match. -/
def matchFract (l : List Char) : Option ((Option ℕ × ℕ × ℕ) × List Char) :=
  let d1 := l.takeWhile Char.isDigit
  let r1 := l.dropWhile Char.isDigit
  if d1 = [] then none
  else
    match r1 with
    | '+' :: rest =>
      let d2 := rest.takeWhile Char.isDigit
      let r2 := rest.dropWhile Char.isDigit
      if d2 = [] then none
      else
        match r2 with
        | '/' :: rest2 =>
          let d3 := rest2.takeWhile Char.isDigit
          let r3 := rest2.dropWhile Char.isDigit
          if d3 = [] then none
          else some ((some (digitsToNat d1), digitsToNat d2, digitsToNat d3), r3)
        | _ => none
    | '/' :: rest =>
      let d3 := rest.takeWhile Char.isDigit
      let r3 := rest.dropWhile Char.isDigit
      if d3 = [] then none
      else some ((none, digitsToNat d1, digitsToNat d3), r3)
    | _ => none

/-- Exceptions that can escape the argument parsers. -/
inductive PyErr where
  | argumentTypeError
  | zeroDivisionError
deriving DecidableEq, Repr

/-- `fract_arg(s)`: match the fraction pattern; on failure raise
`argparse.ArgumentTypeError`; otherwise `base + num / denom`, where the
division raises `ZeroDivisionError` when `denom` is zero, exactly as
Python float division does. -/
def fract_arg (s : String) : Except PyErr ℚ :=
  match matchFract s.data with
  | none => .error .argumentTypeError
  | some ((b, num, denom), _) =>
    if denom = 0 then .error .zeroDivisionError
    else .ok ((b.getD 0 : ℚ) + (num : ℚ) / (denom : ℚ))

/-- `inch_arg(s)`: try `float(s)`; on any failure there, fall back to
`fract_arg(s)` (whose own exceptions propagate). -/
def inch_arg (s : String) : Except PyErr PyFloat :=
  match pyFloat s with
  | some v => .ok v
  | none => (fract_arg s).map PyFloat.finite

/-- Modelled from the spec: the `argparse` machinery (not part of
`src/`) turns an `ArgumentTypeError` raised by a `type=` converter into
a usage error and exits the process with status 2, without retrying;
any other exception escapes as an unhandled traceback, exiting with
status 1.  Status 0 is reached only when parsing succeeds. -/
def argparseExitCode (r : Except PyErr PyFloat) : ℕ :=
  match r with
  | .error .argumentTypeError => 2
  | .error .zeroDivisionError => 1
  | .ok _ => 0

/-! ## The layout generator

The parsed command-line arguments, already converted to numbers:
`width`/`height` are the board dimensions (`args.width`, `args.length`),
`w`/`l` the optional explicit hole counts, `grid`/`drill`/`pad` the pitch
and diameters, `no_mtg` the mounting-hole switch, `mtg`/`inset` the
mounting-hole diameter and inset, `corner` the excluded corner depth
(`args.corner`). -/
structure Args where
  width : ℚ
  height : ℚ
  w : Option ℤ
  l : Option ℤ
  grid : ℚ
  drill : ℚ
  pad : ℚ
  no_mtg : Bool
  mtg : ℚ
  inset : ℚ
  corner : ℤ
deriving DecidableEq, Repr

/-- `border = 0.015`. -/
def border : ℚ := 3 / 200

/-- `pads_w`: the explicit `-w` count if given, otherwise
`math.floor((width - border) / grid_pitch)`. -/
def pads_w (a : Args) : ℤ :=
  match a.w with
  | some n => n
  | none => ⌊(a.width - border) / a.grid⌋

/-- `pads_h`: the explicit `-l` count if given, otherwise
`math.floor((height - border) / grid_pitch)`. -/
def pads_h (a : Args) : ℤ :=
  match a.l with
  | some n => n
  | none => ⌊(a.height - border) / a.grid⌋

/-- The `holes` list: `for x in (inset, width-inset): for y in
(inset, height-inset)`. -/
def holes (a : Args) : List (ℚ × ℚ) :=
  [(a.inset, a.inset), (a.inset, a.height - a.inset),
   (a.width - a.inset, a.inset), (a.width - a.inset, a.height - a.inset)]

/-- Squared distance between two points (`distance` in the source takes
the square root; squares compare the same way, and the source value is
only ever compared against a nonnegative threshold). -/
def distSq (c1 c2 : ℚ × ℚ) : ℚ :=
  (c2.1 - c1.1) ^ 2 + (c2.2 - c1.2) ^ 2

/-- `too_close(x, y, threshold)`: whether any mounting hole lies within
`threshold` of the point, phrased on squared distances.  This helper is
defined in the source but its result is never consulted anywhere. -/
def too_close (a : Args) (x y threshold : ℚ) : Bool :=
  (holes a).any fun h => decide (distSq (x, y) h < threshold ^ 2)

/-- The default `threshold` argument of `too_close`, `0.1875`. -/
def too_close_default_threshold : ℚ := 3 / 16

/-- `in_to_mm(x) = x * 25.4`. -/
def in_to_mm (x : ℚ) : ℚ := x * 25.4

/-- Rendering of a value at 3 decimal places (`"%.3f"`): the signed
count of thousandths kept by the output string. -/
def fmt3 (q : ℚ) : ℤ := round (1000 * q)

/-- `pad_x_orig = (width - (pads_w - 1) * grid_pitch) / 2`. -/
def pad_x_orig (a : Args) : ℚ :=
  (a.width - ((pads_w a : ℚ) - 1) * a.grid) / 2

/-- `pad_y_orig = (height - (pads_h - 1) * grid_pitch) / 2`. -/
def pad_y_orig (a : Args) : ℚ :=
  (a.height - ((pads_h a : ℚ) - 1) * a.grid) / 2

/-- `x = pad_x_orig + i * grid_pitch` (inches). -/
def padX (a : Args) (i : ℕ) : ℚ := pad_x_orig a + i * a.grid

/-- `y = pad_y_orig + j * grid_pitch` (inches). -/
def padY (a : Args) (j : ℕ) : ℚ := pad_y_orig a + j * a.grid

/-- All index pairs visited by the nested loops
`for i in range(pw): for j in range(ph)`, in visiting order. -/
def gridIndices (pw ph : ℕ) : List (ℕ × ℕ) :=
  ((List.range pw).map fun i => (List.range ph).map fun j => (i, j)).flatten

/-- The index pairs of the full (pre-exclusion) pad grid. -/
def padIndices (a : Args) : List (ℕ × ℕ) :=
  gridIndices (pads_w a).toNat (pads_h a).toNat

/-- The `continue` condition of the pad loop: a pad at indices `(i, j)`
is skipped iff mounting holes are on and the index lies in an excluded
corner band on both axes. -/
def excluded (a : Args) (i j : ℤ) : Bool :=
  !a.no_mtg
    && (decide (i < a.corner) || decide (i ≥ pads_w a - a.corner))
    && (decide (j < a.corner) || decide (j ≥ pads_h a - a.corner))

/-- The index pairs that survive the exclusion test, in loop order. -/
def keptIndices (a : Args) : List (ℕ × ℕ) :=
  (padIndices a).filter fun ij => !excluded a ij.1 ij.2

/-- One emitted `signal` record: its name `S$n`, its sequential number
`n`, the grid indices of its pad, and the millimetre values written
into its `via` element. -/
structure Signal where
  name : String
  number : ℕ
  i : ℕ
  j : ℕ
  x : ℚ
  y : ℚ
  drill : ℚ
  diameter : ℚ
deriving DecidableEq, Repr

/-- Build the signal record for the pad at `p.2`, the `p.1`-th surviving
pad (0-based); `signal_number` has been incremented to `p.1 + 1`. -/
def mkSignal (a : Args) (p : ℕ × ℕ × ℕ) : Signal :=
  { name := "S$" ++ toString (p.1 + 1)
    number := p.1 + 1
    i := p.2.1
    j := p.2.2
    x := in_to_mm (padX a p.2.1)
    y := in_to_mm (padY a p.2.2)
    drill := in_to_mm a.drill
    diameter := in_to_mm a.pad }

/-- The `signals` list produced by the pad loop: every surviving index
pair, in loop order, with the running `signal_number` starting at 1. -/
def signalsOf (a : Args) : List Signal :=
  (keptIndices a).enum.map (mkSignal a)

/-- One emitted mounting `hole` element (millimetre values). -/
structure Hole where
  x : ℚ
  y : ℚ
  drill : ℚ
deriving DecidableEq, Repr

/-- The `hole` elements: none when `--no-mtg` is set, otherwise one per
entry of `holes`, with the mounting drill diameter. -/
def emittedHoles (a : Args) : List Hole :=
  if a.no_mtg then []
  else (holes a).map fun h => ⟨in_to_mm h.1, in_to_mm h.2, in_to_mm a.mtg⟩

/-- One board-outline `wire` element (millimetre values). -/
structure Wire where
  x1 : ℚ
  y1 : ℚ
  x2 : ℚ
  y2 : ℚ
deriving DecidableEq, Repr

/-- The four unconditional board-outline edges, in emission order. -/
def outlineWires (a : Args) : List Wire :=
  [⟨0, 0, 0, in_to_mm a.height⟩,
   ⟨0, in_to_mm a.height, in_to_mm a.width, in_to_mm a.height⟩,
   ⟨in_to_mm a.width, in_to_mm a.height, in_to_mm a.width, 0⟩,
   ⟨in_to_mm a.width, 0, 0, 0⟩]

/-- The exclusion rule exactly as the specification words it: mounting
enabled, and the column index within `depth` of either vertical edge, and
the row index within `depth` of either horizontal edge. -/
def specExcluded (mountingEnabled : Bool) (depth pw ph i j : ℤ) : Prop :=
  mountingEnabled = true ∧ (i < depth ∨ i ≥ pw - depth) ∧ (j < depth ∨ j ≥ ph - depth)

/-- Arguments of the specification's worked scenario: a 2 in × 2 in board,
1 in pitch, an explicit 2 × 2 grid, mounting holes off, every other
parameter at the source's argparse default. -/
def sampleArgs : Args :=
  Args.mk 2 2 (some 2) (some 2) 1 (21 / 500) (3 / 40) true (1 / 8) (3 / 16) 3

/-- The same scenario with mounting holes on. -/
def sampleArgsMtg : Args :=
  Args.mk 2 2 (some 2) (some 2) 1 (21 / 500) (3 / 40) false (1 / 8) (3 / 16) 3

/-- A 1 in × 1 in board with no explicit counts, mounting holes on, every
other parameter at the source's argparse default. -/
def sampleArgsAuto : Args :=
  Args.mk 1 1 none none (1 / 10) (21 / 500) (3 / 40) false (1 / 8) (3 / 16) 3

/-! ## Helper lemmas -/

theorem gridIndices_succ (pw ph : ℕ) :
    gridIndices (pw + 1) ph = gridIndices pw ph ++ (List.range ph).map fun j => (pw, j) := by
  simp [gridIndices, List.range_succ]

theorem length_gridIndices (pw ph : ℕ) : (gridIndices pw ph).length = pw * ph := by
  induction pw with
  | zero => simp [gridIndices]
  | succ n ih =>
    rw [gridIndices_succ, List.length_append, ih]
    simp [Nat.succ_mul]

theorem mem_gridIndices (pw ph i j : ℕ) :
    (i, j) ∈ gridIndices pw ph ↔ i < pw ∧ j < ph := by
  constructor
  · intro h
    obtain ⟨L, hL, hmem⟩ := List.mem_flatten.mp h
    obtain ⟨i', hi', rfl⟩ := List.mem_map.mp hL
    obtain ⟨j', hj', hji⟩ := List.mem_map.mp hmem
    injection hji with h1 h2
    subst h1
    subst h2
    exact ⟨List.mem_range.mp hi', List.mem_range.mp hj'⟩
  · rintro ⟨hi, hj⟩
    refine List.mem_flatten.mpr ⟨(List.range ph).map fun j => (i, j), ?_, ?_⟩
    · exact List.mem_map.mpr ⟨i, List.mem_range.mpr hi, rfl⟩
    · exact List.mem_map.mpr ⟨j, List.mem_range.mpr hj, rfl⟩

theorem pairwise_colMajor_gridIndices (pw ph : ℕ) :
    List.Pairwise (fun p q : ℕ × ℕ => p.1 < q.1 ∨ (p.1 = q.1 ∧ p.2 < q.2))
      (gridIndices pw ph) := by
  induction pw with
  | zero => simp [gridIndices]
  | succ n ih =>
    rw [gridIndices_succ, List.pairwise_append]
    refine ⟨ih, ?_, ?_⟩
    · rw [List.pairwise_map]
      exact (List.pairwise_lt_range ph).imp fun h => Or.inr ⟨rfl, h⟩
    · rintro ⟨xi, xj⟩ hx y hy
      obtain ⟨j, -, rfl⟩ := List.mem_map.mp hy
      exact Or.inl ((mem_gridIndices n ph xi xj).mp hx).1

theorem keptIndices_sublist (a : Args) : (keptIndices a).Sublist (padIndices a) :=
  List.filter_sublist _

theorem keptIndices_of_no_mtg (a : Args) (h : a.no_mtg = true) :
    keptIndices a = padIndices a := by
  rw [keptIndices, List.filter_eq_self]
  intro p _
  simp [excluded, h]

theorem length_signalsOf (a : Args) : (signalsOf a).length = (keptIndices a).length := by
  simp [signalsOf]

theorem signalsOf_map_of_fst {β : Type} (a : Args) (F : ℕ → β) (G : Signal → β)
    (hG : ∀ p, G (mkSignal a p) = F p.1) :
    (signalsOf a).map G = (List.range (keptIndices a).length).map F := by
  rw [signalsOf, List.map_map]
  rw [show (G ∘ mkSignal a) = fun p : ℕ × ℕ × ℕ => F p.1 from funext hG]
  rw [show (fun p : ℕ × ℕ × ℕ => F p.1) = F ∘ Prod.fst from rfl]
  rw [← List.map_map, List.enum_map_fst]

theorem signalsOf_map_number (a : Args) :
    (signalsOf a).map Signal.number
      = (List.range (keptIndices a).length).map (fun n => n + 1) :=
  signalsOf_map_of_fst a _ _ fun _ => rfl

theorem signalsOf_map_name (a : Args) :
    (signalsOf a).map Signal.name
      = (List.range (keptIndices a).length).map (fun n => "S$" ++ toString (n + 1)) :=
  signalsOf_map_of_fst a _ _ fun _ => rfl

theorem signalsOf_map_ij (a : Args) :
    (signalsOf a).map (fun s => (s.i, s.j)) = keptIndices a := by
  rw [signalsOf, List.map_map]
  rw [show ((fun s : Signal => (s.i, s.j)) ∘ mkSignal a) = Prod.snd from funext fun p => rfl]
  exact List.enum_map_snd _

theorem sum_map_range_const (n : ℕ) (c : ℚ) :
    ((List.range n).map fun _ => c).sum = n * c := by
  induction n with
  | zero => simp
  | succ m ih =>
    rw [List.range_succ, List.map_append, List.sum_append, ih]
    push_cast
    simp
    ring

theorem sum_map_range_affine (c p : ℚ) (n : ℕ) :
    ((List.range n).map fun i : ℕ => c + (i : ℚ) * p).sum
      = n * c + ((n : ℚ) * ((n : ℚ) - 1) / 2) * p := by
  induction n with
  | zero => norm_num
  | succ m ih =>
    rw [List.range_succ, List.map_append, List.sum_append, ih]
    push_cast
    simp
    ring

theorem sum_fst_gridIndices (pw ph : ℕ) (f : ℕ → ℚ) :
    ((gridIndices pw ph).map fun ij => f ij.1).sum
      = ph * ((List.range pw).map f).sum := by
  induction pw with
  | zero => simp [gridIndices]
  | succ n ih =>
    rw [gridIndices_succ, List.map_append, List.sum_append, ih, List.map_map]
    rw [show ((fun ij : ℕ × ℕ => f ij.1) ∘ fun j => (n, j)) = fun _ => f n from rfl]
    rw [sum_map_range_const, List.range_succ, List.map_append, List.sum_append]
    simp
    ring

theorem sum_snd_gridIndices (pw ph : ℕ) (f : ℕ → ℚ) :
    ((gridIndices pw ph).map fun ij => f ij.2).sum
      = pw * ((List.range ph).map f).sum := by
  induction pw with
  | zero => simp [gridIndices]
  | succ n ih =>
    rw [gridIndices_succ, List.map_append, List.sum_append, ih, List.map_map]
    rw [show ((fun ij : ℕ × ℕ => f ij.2) ∘ fun j => (n, j)) = f from rfl]
    push_cast
    ring

theorem mean_div (n m : ℕ) (hn : 0 < n) (hm : 0 < m) (w g : ℚ) :
    (m : ℚ) * ((n : ℚ) * ((w - ((n : ℚ) - 1) * g) / 2)
        + ((n : ℚ) * ((n : ℚ) - 1) / 2) * g) / ((n * m : ℕ) : ℚ) = w / 2 := by
  have hn' : (n : ℚ) ≠ 0 := Nat.cast_ne_zero.mpr hn.ne'
  have hm' : (m : ℚ) ≠ 0 := Nat.cast_ne_zero.mpr hm.ne'
  push_cast
  field_simp
  ring

/-! ## The claims -/

/-- C1: for positive resolved pad counts with mounting holes disabled, the
generator emits exactly `padCountWidth * padCountHeight` pad records, and
their signal identifiers are exactly the integers `1..count` in order,
each used exactly once, with signal names `S$1..S$count`. -/
theorem C1_pad_count_and_signals (a : Args) (hm : a.no_mtg = true)
    (hw : 0 < pads_w a) (hh : 0 < pads_h a) :
    (signalsOf a).length = (pads_w a).toNat * (pads_h a).toNat ∧
    (signalsOf a).map Signal.number
      = (List.range ((pads_w a).toNat * (pads_h a).toNat)).map (fun n => n + 1) ∧
    (signalsOf a).map Signal.name
      = (List.range ((pads_w a).toNat * (pads_h a).toNat)).map
          (fun n => "S$" ++ toString (n + 1)) := by
  have hk : (keptIndices a).length = (pads_w a).toNat * (pads_h a).toNat := by
    rw [keptIndices_of_no_mtg a hm, padIndices, length_gridIndices]
  exact ⟨(length_signalsOf a).trans hk,
    by rw [signalsOf_map_number, hk],
    by rw [signalsOf_map_name, hk]⟩

/-- Witness for C1: the specification's 2 × 2 scenario has 4 pads named
`S$1..S$4` with numbers `1..4`. -/
theorem C1_witness :
    (signalsOf sampleArgs).length = (pads_w sampleArgs).toNat * (pads_h sampleArgs).toNat ∧
    (signalsOf sampleArgs).map Signal.number
      = (List.range ((pads_w sampleArgs).toNat * (pads_h sampleArgs).toNat)).map
          (fun n => n + 1) ∧
    (signalsOf sampleArgs).map Signal.name
      = (List.range ((pads_w sampleArgs).toNat * (pads_h sampleArgs).toNat)).map
          (fun n => "S$" ++ toString (n + 1)) :=
  C1_pad_count_and_signals sampleArgs rfl (by decide) (by decide)

/-- C2: a pad index pair inside the grid is omitted from the output iff
mounting is enabled and the index is within `excludedCornerDepth` of an
edge on both axes — i.e. exactly the specification's index-based rule —
and the decision depends only on the mounting flag, the depth and the two
counts, never on any geometric quantity (pitch, inset, dimensions, hole
positions). -/
theorem C2_exclusion_rule (a : Args) (i j : ℕ)
    (hi : i < (pads_w a).toNat) (hj : j < (pads_h a).toNat) :
    ((i, j) ∉ keptIndices a ↔
      specExcluded (!a.no_mtg) a.corner (pads_w a) (pads_h a) i j) ∧
    (∀ a' : Args, a'.no_mtg = a.no_mtg → a'.corner = a.corner →
      pads_w a' = pads_w a → pads_h a' = pads_h a →
      excluded a' i j = excluded a i j) := by
  constructor
  · rw [keptIndices, List.mem_filter]
    have hmem : (i, j) ∈ padIndices a := (mem_gridIndices _ _ i j).mpr ⟨hi, hj⟩
    by_cases hb : a.no_mtg
    · simp [hmem, excluded, specExcluded, hb]
    · simp [hmem, excluded, specExcluded, hb]
      omega
  · intro a' h1 h2 h3 h4
    simp [excluded, h1, h2, h3, h4]

/-- Witness for C2: in the 2 × 2 scenario with mounting on and corner
depth 3, the pad `(0, 0)` is omitted. -/
theorem C2_witness : (0, 0) ∉ keptIndices sampleArgsMtg :=
  (C2_exclusion_rule sampleArgsMtg 0 0 (by decide) (by decide)).1.mpr
    ⟨rfl, Or.inl (by decide), Or.inl (by decide)⟩

/-- C3: surviving pads are emitted in column-major order (increasing outer
index `i`, then inner index `j`) and carry sequential signal numbers
starting at 1 in that order; in particular the signal numbers are
duplicate-free. -/
theorem C3_column_major_sequential (a : Args) :
    (signalsOf a).map Signal.number
      = (List.range (signalsOf a).length).map (fun n => n + 1) ∧
    List.Pairwise (fun p q : ℕ × ℕ => p.1 < q.1 ∨ (p.1 = q.1 ∧ p.2 < q.2))
      ((signalsOf a).map fun s => (s.i, s.j)) ∧
    ((signalsOf a).map Signal.number).Nodup := by
  refine ⟨by rw [signalsOf_map_number, length_signalsOf], ?_, ?_⟩
  · rw [signalsOf_map_ij]
    exact List.Pairwise.sublist (keptIndices_sublist a) (pairwise_colMajor_gridIndices _ _)
  · rw [signalsOf_map_number]
    exact ((List.nodup_range _).map (add_left_injective 1))

/-- C4: the emitted mounting-hole records are empty when mounting is
disabled and otherwise exactly the four corners inset by `inset`,
positions that depend only on `inset`, `width`, `height` (and the hole
diameter on `mtg`) — not on any pad-grid parameter. -/
theorem C4_mounting_holes (a : Args) :
    emittedHoles a
      = (if a.no_mtg then ([] : List Hole) else
          [⟨in_to_mm a.inset, in_to_mm a.inset, in_to_mm a.mtg⟩,
           ⟨in_to_mm a.inset, in_to_mm (a.height - a.inset), in_to_mm a.mtg⟩,
           ⟨in_to_mm (a.width - a.inset), in_to_mm a.inset, in_to_mm a.mtg⟩,
           ⟨in_to_mm (a.width - a.inset), in_to_mm (a.height - a.inset),
             in_to_mm a.mtg⟩]) ∧
    ∀ a' : Args, a'.no_mtg = a.no_mtg → a'.inset = a.inset → a'.width = a.width →
      a'.height = a.height → a'.mtg = a.mtg → emittedHoles a' = emittedHoles a := by
  constructor
  · by_cases h : a.no_mtg <;> simp [emittedHoles, holes, h]
  · intro a' h1 h2 h3 h4 h5
    simp [emittedHoles, holes, h1, h2, h3, h4, h5]

/-- Witness for C4: with mounting on the scenario emits 4 hole records,
with mounting off it emits none. -/
theorem C4_witness :
    (emittedHoles sampleArgsMtg).length = 4 ∧ emittedHoles sampleArgs = [] := by
  constructor
  · rw [(C4_mounting_holes sampleArgsMtg).1]
    rfl
  · rw [(C4_mounting_holes sampleArgs).1]
    rfl

/-- C5: the grid origin is `(width - (padCountWidth - 1) * gridPitch) / 2`
(analogously for Y), and for positive counts the mean of all pre-exclusion
pad X coordinates is `width / 2` and of all pad Y coordinates is
`height / 2`. -/
theorem C5_grid_centered (a : Args) (hw : 0 < pads_w a) (hh : 0 < pads_h a) :
    pad_x_orig a = (a.width - ((pads_w a : ℚ) - 1) * a.grid) / 2 ∧
    pad_y_orig a = (a.height - ((pads_h a : ℚ) - 1) * a.grid) / 2 ∧
    ((padIndices a).map fun ij => padX a ij.1).sum / ((padIndices a).length : ℚ)
      = a.width / 2 ∧
    ((padIndices a).map fun ij => padY a ij.2).sum / ((padIndices a).length : ℚ)
      = a.height / 2 := by
  have hcw : ((pads_w a).toNat : ℚ) = ((pads_w a : ℤ) : ℚ) := by
    exact_mod_cast Int.toNat_of_nonneg hw.le
  have hch : ((pads_h a).toNat : ℚ) = ((pads_h a : ℤ) : ℚ) := by
    exact_mod_cast Int.toNat_of_nonneg hh.le
  have hnw : 0 < (pads_w a).toNat := by omega
  have hnh : 0 < (pads_h a).toNat := by omega
  refine ⟨rfl, rfl, ?_, ?_⟩
  · rw [padIndices, sum_fst_gridIndices, length_gridIndices]
    rw [show padX a = fun i : ℕ => pad_x_orig a + (i : ℚ) * a.grid from rfl]
    rw [sum_map_range_affine, pad_x_orig, ← hcw]
    exact mean_div _ _ hnw hnh a.width a.grid
  · rw [padIndices, sum_snd_gridIndices, length_gridIndices]
    rw [show padY a = fun j : ℕ => pad_y_orig a + (j : ℚ) * a.grid from rfl]
    rw [sum_map_range_affine, pad_y_orig, ← hch]
    rw [Nat.mul_comm (pads_w a).toNat (pads_h a).toNat]
    exact mean_div _ _ hnh hnw a.height a.grid

/-- Witness for C5: in the 2 × 2 scenario the mean pad X coordinate is
`width / 2` and the mean pad Y coordinate is `height / 2`. -/
theorem C5_witness :
    ((padIndices sampleArgs).map fun ij => padX sampleArgs ij.1).sum
        / ((padIndices sampleArgs).length : ℚ) = sampleArgs.width / 2 ∧
    ((padIndices sampleArgs).map fun ij => padY sampleArgs ij.2).sum
        / ((padIndices sampleArgs).length : ℚ) = sampleArgs.height / 2 :=
  ⟨(C5_grid_centered sampleArgs (by decide) (by decide)).2.2.1,
   (C5_grid_centered sampleArgs (by decide) (by decide)).2.2.2⟩

/-- C6: an absent explicit count resolves to
`floor((dimension - border) / gridPitch)` with the fixed margin
`border = 0.015`; an explicit count is taken as given, bypassing that
computation. -/
theorem C6_count_resolution (a : Args) :
    (∀ n : ℤ, a.w = some n → pads_w a = n) ∧
    (a.w = none → pads_w a = ⌊(a.width - border) / a.grid⌋) ∧
    (∀ n : ℤ, a.l = some n → pads_h a = n) ∧
    (a.l = none → pads_h a = ⌊(a.height - border) / a.grid⌋) ∧
    border = 3 / 200 := by
  refine ⟨fun n h => ?_, fun h => ?_, fun n h => ?_, fun h => ?_, rfl⟩ <;>
    simp [pads_w, pads_h, h]

/-- Witness for C6: the explicit count 2 is taken as is; the 1 in board
with 0.1 in pitch resolves to the floor formula. -/
theorem C6_witness :
    pads_w sampleArgs = 2 ∧
    pads_w sampleArgsAuto = ⌊(sampleArgsAuto.width - border) / sampleArgsAuto.grid⌋ :=
  ⟨(C6_count_resolution sampleArgs).1 2 rfl, (C6_count_resolution sampleArgsAuto).2.1 rfl⟩

/-- C7: every millimetre value placed in the output — via and hole
coordinates and diameters, outline endpoints — equals the corresponding
inch value times 25.4, and the 3-decimal rendering of a converted value
is the rendering of `25.4 * v`. -/
theorem C7_mm_conversion (a : Args) :
    (∀ s ∈ signalsOf a,
      s.x = 25.4 * padX a s.i ∧ s.y = 25.4 * padY a s.j ∧
      s.drill = 25.4 * a.drill ∧ s.diameter = 25.4 * a.pad) ∧
    (∀ h ∈ emittedHoles a, ∃ p ∈ holes a,
      h.x = 25.4 * p.1 ∧ h.y = 25.4 * p.2 ∧ h.drill = 25.4 * a.mtg) ∧
    ((outlineWires a).map fun w => (w.x1, w.y1, w.x2, w.y2))
      = [((0 : ℚ), (0 : ℚ), (0 : ℚ), 25.4 * a.height),
         (0, 25.4 * a.height, 25.4 * a.width, 25.4 * a.height),
         (25.4 * a.width, 25.4 * a.height, 25.4 * a.width, 0),
         (25.4 * a.width, 0, 0, 0)] ∧
    ∀ q : ℚ, fmt3 (in_to_mm q) = round (1000 * (25.4 * q)) := by
  refine ⟨?_, ?_, ?_, ?_⟩
  · intro s hs
    obtain ⟨p, hp, rfl⟩ := List.mem_map.mp hs
    exact ⟨mul_comm _ _, mul_comm _ _, mul_comm _ _, mul_comm _ _⟩
  · intro h hh
    rw [emittedHoles] at hh
    by_cases hmtg : a.no_mtg
    · simp [hmtg] at hh
    · rw [if_neg hmtg] at hh
      obtain ⟨p, hp, rfl⟩ := List.mem_map.mp hh
      exact ⟨p, hp, mul_comm _ _, mul_comm _ _, mul_comm _ _⟩
  · simp [outlineWires, in_to_mm, mul_comm]
  · intro q
    simp only [fmt3, in_to_mm]
    exact congrArg round (by ring)

/-- Witness for C7: rendering the conversion of 3 in gives the rendering
of `25.4 * 3` mm. -/
theorem C7_witness : fmt3 (in_to_mm (3 : ℚ)) = round ((1000 : ℚ) * (25.4 * 3)) :=
  (C7_mm_conversion sampleArgs).2.2.2 3

theorem matchFract_suffix (l : List Char) (g : Option ℕ × ℕ × ℕ) (r : List Char)
    (h : matchFract l = some (g, r)) : ∃ pre, l = pre ++ r := by
  have e1 : l = l.takeWhile Char.isDigit ++ l.dropWhile Char.isDigit :=
    (List.takeWhile_append_dropWhile _ _).symm
  simp only [matchFract] at h
  split at h
  · exact absurd h (by simp)
  · split at h
    · rename_i rest heq
      have e2 : rest = rest.takeWhile Char.isDigit ++ rest.dropWhile Char.isDigit :=
        (List.takeWhile_append_dropWhile _ _).symm
      split at h
      · exact absurd h (by simp)
      · split at h
        · rename_i rest2 heq2
          split at h
          · exact absurd h (by simp)
          · injection h with h4
            injection h4 with h5 h6
            have e3 : rest2 = rest2.takeWhile Char.isDigit ++ r := by
              rw [← h6]
              exact (List.takeWhile_append_dropWhile _ _).symm
            refine ⟨l.takeWhile Char.isDigit ++
              '+' :: (rest.takeWhile Char.isDigit ++
                '/' :: rest2.takeWhile Char.isDigit), ?_⟩
            conv_lhs => rw [e1, heq, e2, heq2, e3]
            simp
        · exact absurd h (by simp)
    · rename_i rest heq
      split at h
      · exact absurd h (by simp)
      · injection h with h4
        injection h4 with h5 h6
        have e3 : rest = rest.takeWhile Char.isDigit ++ r := by
          rw [← h6]
          exact (List.takeWhile_append_dropWhile _ _).symm
        refine ⟨l.takeWhile Char.isDigit ++ '/' :: rest.takeWhile Char.isDigit, ?_⟩
        conv_lhs => rw [e1, heq, e3]
        simp
    · exact absurd h (by simp)

/-- C8: a dimension string that neither `float()` accepts nor the fraction
pattern matches makes `inch_arg` fail with `argparse.ArgumentTypeError`,
which surfaces as a usage error and a non-zero process exit. -/
theorem C8_malformed_usage_error (s : String)
    (hf : pyFloat s = none) (hm : matchFract s.data = none) :
    inch_arg s = .error .argumentTypeError ∧ argparseExitCode (inch_arg s) ≠ 0 := by
  have h1 : inch_arg s = .error .argumentTypeError := by
    simp [inch_arg, hf, fract_arg, hm, Except.map]
  exact ⟨h1, by rw [h1]; decide⟩

/-- Witness for C8: `"abc"` is rejected with a usage error. -/
theorem C8_witness :
    inch_arg "abc" = .error .argumentTypeError ∧
    argparseExitCode (inch_arg "abc") ≠ 0 :=
  C8_malformed_usage_error "abc" (by decide) (by decide)

/-- C9: a string the fraction pattern matches with denominator 0 makes
`inch_arg` raise an unguarded `ZeroDivisionError` rather than the usage
error raised for non-matching strings. -/
theorem C9_zero_denominator (s : String) (b : Option ℕ) (n : ℕ) (rest : List Char)
    (hf : pyFloat s = none) (hm : matchFract s.data = some ((b, n, 0), rest)) :
    inch_arg s = .error .zeroDivisionError := by
  simp [inch_arg, hf, fract_arg, hm, Except.map]

/-- Witness for C9: `"1/0"` and `"3+1/0"` both raise `ZeroDivisionError`. -/
theorem C9_witness :
    inch_arg "1/0" = .error .zeroDivisionError ∧
    inch_arg "3+1/0" = .error .zeroDivisionError :=
  ⟨C9_zero_denominator "1/0" none 1 [] (by decide) (by decide),
   C9_zero_denominator "3+1/0" (some 3) 1 [] (by decide) (by decide)⟩

/-- C10: a string `float()` rejects whose prefix the fraction pattern
matches (with nonzero denominator) parses successfully to the value of
the matched prefix; the unconsumed trailing characters are silently
ignored, because the pattern is matched as a prefix of the string. -/
theorem C10_prefix_match (s : String) (b : Option ℕ) (n d : ℕ) (rest : List Char)
    (hf : pyFloat s = none) (hm : matchFract s.data = some ((b, n, d), rest))
    (hd : d ≠ 0) :
    inch_arg s = .ok (.finite ((b.getD 0 : ℚ) + (n : ℚ) / (d : ℚ))) ∧
    ∃ consumed, s.data = consumed ++ rest := by
  constructor
  · simp [inch_arg, hf, fract_arg, hm, hd, Except.map]
  · exact matchFract_suffix s.data _ _ hm

/-- Witness for C10: `"1/2abc"` parses to `1/2`, with `"abc"` left over. -/
theorem C10_witness :
    inch_arg "1/2abc"
      = .ok (.finite (((none : Option ℕ).getD 0 : ℚ) + (1 : ℚ) / (2 : ℚ))) ∧
    ∃ consumed, "1/2abc".data = consumed ++ ['a', 'b', 'c'] :=
  C10_prefix_match "1/2abc" none 1 2 ['a', 'b', 'c'] (by decide) (by decide) (by decide)

end Eagleproto
